import Mathlib

/-!
Shallow embedding of the MARigKit Blender add-ons
(`NH_BoneCleaner.py`, `NH_SyncTransform.py`).

Scene data owned by the host application (meshes, vertex groups,
per-vertex weights, armatures, bones, pose-bone constraints) is modelled
by plain Lean structures; object references are modelled by object names
(unique within a Blender scene), and weights by rationals.  Each operator
`execute` method becomes a pure function from a scene state to a result
flag (`FINISHED` / `CANCELLED`) paired with the new scene state.
-/

/-- Entry of a vertex's group-weight list (`v.groups` element): a vertex
group index together with the weight of this vertex in that group. -/
structure VGEntry where
  group : Nat
  weight : ℚ
deriving DecidableEq, Repr

/-- Mesh vertex: carries its list of group-weight entries (`v.groups`). -/
structure Vertex where
  groups : List VGEntry
deriving DecidableEq, Repr

/-- Named vertex group of a mesh (`obj.vertex_groups` element). -/
structure VertexGroup where
  name : String
deriving DecidableEq, Repr

/-- Modifier on a mesh object: its name, its type string (the code only
distinguishes type `"ARMATURE"`) and the name of the armature object it
points at (`None` when unset). -/
structure Modifier where
  name : String
  mtype : String
  object : Option String
deriving DecidableEq, Repr

/-- Scene object as seen by `NH_BoneCleaner` (the code filters the
selection by `obj.type == 'MESH'`): name, type string, modifier stack,
vertex groups and vertices. -/
structure BObj where
  name : String
  otype : String
  modifiers : List Modifier
  vertexGroups : List VertexGroup
  vertices : List Vertex
deriving DecidableEq, Repr

/-- Armature data bone (`arm.data.bones` element): its name and the name
of its parent bone, if any (`bone.parent` reference, modelled by name
since bone names are unique within an armature). -/
structure DataBone where
  name : String
  parent : Option String
deriving DecidableEq, Repr

/-- Armature edit bone (`arm.data.edit_bones` element): name and
selection flag. -/
structure EditBone where
  name : String
  select : Bool
deriving DecidableEq, Repr

/-- Armature object as used by `NH_BoneCleaner`: object name, data bones
and edit bones. -/
structure ArmObj where
  name : String
  dataBones : List DataBone
  editBones : List EditBone
deriving DecidableEq, Repr

/-- Result flag of a Blender operator `execute` method. -/
inductive ExecResult where
  | cancelled
  | finished
deriving DecidableEq, Repr

/-- Scene state for the `NH_BoneCleaner` operators: the current object
selection, the scene's armature objects (addressable by object name, as
`mod.object` references are), editor mode, active object, and the two
UI option properties of `BoneCleanerProperties`. -/
structure BCScene where
  selectedObjects : List BObj
  armatures : List ArmObj
  mode : String
  active : Option String
  modifierName : String
  preserveHierarchy : Bool
deriving DecidableEq, Repr

/-- Translation of `get_vertex_group_weights(obj, group_name)`
(NH_BoneCleaner.py lines 16-25): look up the index of the named vertex
group (`vertex_groups.find`, first match, `-1`/`none` when absent); if
absent return `[]`, else collect the weight of every entry of every
vertex whose group index equals it. -/
def get_vertex_group_weights (obj : BObj) (group_name : String) : List ℚ :=
  match obj.vertexGroups.findIdx? (fun vg => vg.name == group_name) with
  | none => []
  | some idx =>
    (obj.vertices.flatMap (fun v => v.groups.filter (fun g => g.group == idx))).map
      (fun g => g.weight)

/-- Translation of the `mod_map` built by `find_common_armature_modifier`
(NH_BoneCleaner.py lines 27-36) followed by `mod_map.get(mod_name)`:
for every selected mesh, every modifier of type `ARMATURE` with an
object set writes `mod_map[mod.name] = mod.object`, so the lookup
returns the object of the last such modifier named `modName`, and
`none` when no selected mesh carries one. -/
def find_common_armature_modifier_map (meshes : List BObj) (modName : String) :
    Option String :=
  meshes.foldl
    (fun acc mesh =>
      mesh.modifiers.foldl
        (fun acc2 m =>
          if m.mtype == "ARMATURE" && m.object.isSome && m.name == modName then
            m.object
          else acc2)
        acc)
    none

/-- Translation of the `Counter` count of `find_common_armature_modifier`
(NH_BoneCleaner.py lines 28-35): how many armature-type modifiers named
`modName` with an object set occur across the selected meshes.  The
modifier name is in the `common` list iff this count equals the number
of meshes. -/
def modifier_name_count (meshes : List BObj) (modName : String) : Nat :=
  (meshes.map
    (fun mesh =>
      (mesh.modifiers.filter
        (fun m => m.mtype == "ARMATURE" && m.object.isSome && m.name == modName)).length)).sum

/-- Inner loop of the usage detection (NH_BoneCleaner.py lines 75-78):
the vertex-group names of one mesh whose weight list contains a strictly
positive weight. -/
def usedBonesOfMesh (mesh : BObj) : List String :=
  (mesh.vertexGroups.filter
    (fun vg => (get_vertex_group_weights mesh vg.name).any (fun w => decide (0 < w)))).map
    (fun vg => vg.name)

/-- Usage-detection loop of `BONECLEANER_OT_SelectUnusedBones.execute`
(NH_BoneCleaner.py lines 70-78): union over the selected meshes, skipping
meshes whose modifier named `modName` is missing, is not of type
`ARMATURE`, or does not point at the chosen armature object. -/
def computeUsedBones (meshes : List BObj) (modName armName : String) : List String :=
  meshes.foldl
    (fun acc mesh =>
      match mesh.modifiers.find? (fun m => m.name == modName) with
      | none => acc
      | some m =>
        if m.mtype == "ARMATURE" && m.object == some armName then
          acc ++ usedBonesOfMesh mesh
        else acc)
    []

/-- Lookup `arm.data.bones.get(name)`: first data bone with that name. -/
def bonesGet (bones : List DataBone) (name : String) : Option DataBone :=
  bones.find? (fun b => b.name == name)

/-- One step of the ancestor walk `bone = bone.parent`
(NH_BoneCleaner.py line 86): follow the parent reference, resolved by
name inside the armature's bone collection. -/
def boneStep (bones : List DataBone) : Option DataBone → Option DataBone
  | none => none
  | some b =>
    match b.parent with
    | none => none
    | some p => bonesGet bones p

/-- Names visited by the `while bone:` walk of NH_BoneCleaner.py lines
84-86, starting from an optional bone, with explicit fuel (the Python
loop is unbounded; fuel `bones.length + 1` suffices for acyclic parent
relations, see the termination theorem). -/
def chainNames (bones : List DataBone) : Nat → Option DataBone → List String
  | _, none => []
  | 0, some _ => []
  | fuel + 1, some b => b.name :: chainNames bones fuel (boneStep bones (some b))

/-- Hierarchy expansion of `BONECLEANER_OT_SelectUnusedBones.execute`
(NH_BoneCleaner.py lines 80-87): for each used name, look the bone up in
the armature and add every name on its parent chain ( nothing when the
lookup fails). -/
def expandHierarchy (bones : List DataBone) (used : List String) : List String :=
  used.foldl (fun acc n => acc ++ chainNames bones (bones.length + 1) (bonesGet bones n)) []

/-- Meshes of the current selection (`obj.type == 'MESH'` filter used by
both `NH_BoneCleaner` operators). -/
def selectedMeshes (s : BCScene) : List BObj :=
  s.selectedObjects.filter (fun o => o.otype == "MESH")

/-- Used-name set of the Select Unused Bones operator after the optional
hierarchy expansion (NH_BoneCleaner.py lines 70-87), given the chosen
armature's object name. -/
def finalUsedBones (s : BCScene) (armName : String) : List String :=
  let used := computeUsedBones (selectedMeshes s) s.modifierName armName
  if s.preserveHierarchy then
    expandHierarchy
      (((s.armatures.find? (fun a => a.name == armName)).map (fun a => a.dataBones)).getD [])
      used
  else used

/-- Translation of `BONECLEANER_OT_SelectUnusedBones.execute`
(NH_BoneCleaner.py lines 54-96).  Validation: at least one mesh selected,
and `mod_map.get(mod_name)` not `None`.  On success: switch to Edit Mode
on the chosen armature and set each edit bone's selection flag to
whether its name is missing from the used set. -/
def selectUnusedBonesExec (s : BCScene) : ExecResult × BCScene :=
  let meshes := selectedMeshes s
  if meshes.isEmpty then (ExecResult.cancelled, s)
  else
    match find_common_armature_modifier_map meshes s.modifierName with
    | none => (ExecResult.cancelled, s)
    | some armName =>
      let used := finalUsedBones s armName
      (ExecResult.finished,
        { s with
          mode := "EDIT_ARMATURE"
          active := some armName
          armatures :=
            s.armatures.map (fun a =>
              if a.name == armName then
                { a with
                  editBones :=
                    a.editBones.map (fun b => { b with select := !(used.contains b.name) }) }
              else a) })

/-- Translation of `BONECLEANER_OT_DeleteSelectedBones.execute`
(NH_BoneCleaner.py lines 103-109): cancel unless the editor is in
armature Edit Mode, else invoke the host operator
`bpy.ops.armature.delete`, modelled as removing the selected edit bones
of the active armature object. -/
def deleteSelectedBonesExec (s : BCScene) : ExecResult × BCScene :=
  if s.mode == "EDIT_ARMATURE" then
    (ExecResult.finished,
      { s with
        armatures :=
          s.armatures.map (fun a =>
            if s.active == some a.name then
              { a with editBones := a.editBones.filter (fun b => !b.select) }
            else a) })
  else (ExecResult.cancelled, s)

/-- Used group indices of one mesh as computed by
`BONECLEANER_OT_DeleteUnusedVertexGroups.execute` (NH_BoneCleaner.py
lines 125-129): indices carried by some vertex entry of strictly
positive weight. -/
def usedGroupIdxs (mesh : BObj) : List Nat :=
  mesh.vertices.flatMap
    (fun v => (v.groups.filter (fun g => decide (0 < g.weight))).map (fun g => g.group))

/-- Per-mesh body of `BONECLEANER_OT_DeleteUnusedVertexGroups.execute`
(NH_BoneCleaner.py lines 125-133): list the names of the groups whose
index is unused, then remove each by name (first match, as
`vertex_groups[name]` resolves names). -/
def deleteUnusedGroupsOfMesh (mesh : BObj) : BObj :=
  let used := usedGroupIdxs mesh
  let toRemove :=
    (mesh.vertexGroups.enum.filter (fun p => !(used.contains p.1))).map (fun p => p.2.name)
  { mesh with
    vertexGroups :=
      toRemove.foldl (fun vgs n => vgs.eraseP (fun vg => vg.name == n)) mesh.vertexGroups }

/-- Translation of `BONECLEANER_OT_DeleteUnusedVertexGroups.execute`
(NH_BoneCleaner.py lines 116-137): cancel when no mesh is selected, else
delete the unused vertex groups of every selected mesh. -/
def deleteUnusedVertexGroupsExec (s : BCScene) : ExecResult × BCScene :=
  if (selectedMeshes s).isEmpty then (ExecResult.cancelled, s)
  else
    (ExecResult.finished,
      { s with
        selectedObjects :=
          s.selectedObjects.map (fun o =>
            if o.otype == "MESH" then deleteUnusedGroupsOfMesh o else o) })

/-- Pose-bone constraint as manipulated by `NH_SyncTransform.py`: name,
constraint type string, target object (by object name), subtarget bone
name, target and owner space strings, the per-axis flags, and the
optional `mix_mode` (present only on copy-rotation constraints). -/
structure Constraint where
  name : String
  ctype : String
  target : Option String
  subtarget : String
  targetSpace : String
  ownerSpace : String
  useX : Bool
  useY : Bool
  useZ : Bool
  mixMode : Option String
deriving DecidableEq, Repr

/-- Pose bone (`armature.pose.bones` element): name and constraint
stack. -/
structure PoseBone where
  name : String
  constraints : List Constraint
deriving DecidableEq, Repr

/-- Armature object as used by `NH_SyncTransform`: object name and pose
bones. -/
structure SArm where
  name : String
  poseBones : List PoseBone
deriving DecidableEq, Repr

/-- Scene state for the `NH_SyncTransform` operators: the two scene
pointer properties `nh_sync_source` and `nh_sync_target`. -/
structure SyncScene where
  source : Option SArm
  target : Option SArm
deriving DecidableEq, Repr

/-- Constant `PREFIXES["ROT"]` of NH_SyncTransform.py. -/
def rotPref : String := "NH_SYNC_ROT_"

/-- Constant `PREFIXES["LOC"]` of NH_SyncTransform.py. -/
def locPref : String := "NH_SYNC_LOC_"

/-- Constant `PREFIXES["SCL"]` of NH_SyncTransform.py. -/
def sclPref : String := "NH_SYNC_SCL_"

/-- Python's `s.startswith(pre)`: the character sequence of `pre` is an
initial segment of that of `s`. -/
def pyStartsWith (s pre : String) : Bool :=
  pre.data.isPrefixOf s.data

/-- Test `c.name.startswith(ALL_PREFIXES)` (NH_SyncTransform.py lines
21, 31, 36): the name starts with one of the three sync prefixes. -/
def isSyncName (n : String) : Bool :=
  pyStartsWith n rotPref || pyStartsWith n locPref || pyStartsWith n sclPref

/-- Translation of `get_common_bone_names(armature1, armature2)`
(NH_SyncTransform.py lines 24-26): sorted list of the intersection of
the two pose-bone name sets. -/
def get_common_bone_names (armature1 armature2 : SArm) : List String :=
  List.mergeSort
    (((armature1.poseBones.map (fun b => b.name)).dedup).filter
      (fun n => (armature2.poseBones.map (fun b => b.name)).contains n))
    (fun a b => a ≤ b)

/-- Translation of `has_sync_constraint(bone)` (NH_SyncTransform.py
lines 29-31). -/
def has_sync_constraint (bone : PoseBone) : Bool :=
  bone.constraints.any (fun c => isSyncName c.name)

/-- Translation of `_remove_existing_constraints(bone)`
(NH_SyncTransform.py lines 34-37): iterate over a snapshot of the
constraint stack and remove (first occurrence, as Python removes by
object identity) each constraint whose name carries a sync prefix. -/
def removeExistingConstraints (cs : List Constraint) : List Constraint :=
  cs.foldl (fun cur c => if isSyncName c.name then cur.erase c else cur) cs

/-- Translation of `_new_constraint(bone, ctype, name, source, subtarget)`
(NH_SyncTransform.py lines 40-47): a fresh constraint with the assigned
name, type, target, subtarget and `WORLD` spaces; the per-axis flags
keep the host's default `True` and `mix_mode` its type's default. -/
def newConstraint (ctype name : String) (source : SArm) (subtarget : String) : Constraint :=
  { name := name
    ctype := ctype
    target := some source.name
    subtarget := subtarget
    targetSpace := "WORLD"
    ownerSpace := "WORLD"
    useX := true
    useY := true
    useZ := true
    mixMode := none }

/-- Constraints created for one common bone by `apply_constraints`
(NH_SyncTransform.py lines 59-88), in creation order: copy-rotation
(axes on, `mix_mode = "REPLACE"`), copy-location (axes on), copy-scale
(axes on). -/
def syncConstraintsFor (source : SArm) (boneName : String) : List Constraint :=
  [ { newConstraint "COPY_ROTATION" (rotPref ++ boneName) source boneName with
        useX := true, useY := true, useZ := true, mixMode := some "REPLACE" },
    { newConstraint "COPY_LOCATION" (locPref ++ boneName) source boneName with
        useX := true, useY := true, useZ := true },
    { newConstraint "COPY_SCALE" (sclPref ++ boneName) source boneName with
        useX := true, useY := true, useZ := true } ]

/-- Per-bone body of `apply_constraints` (NH_SyncTransform.py lines
57-88): remove the existing sync constraints, then append the three
fresh ones. -/
def applySyncToBone (source : SArm) (boneName : String) (b : PoseBone) : PoseBone :=
  { b with
    constraints := removeExistingConstraints b.constraints ++ syncConstraintsFor source boneName }

/-- Mutation through `target.pose.bones.get(bone_name)`: apply `f` to the
first pose bone with the given name, and do nothing when there is none
(the `continue` branch of NH_SyncTransform.py lines 53-55). -/
def updateFirstBone (f : PoseBone → PoseBone) (boneName : String) :
    List PoseBone → List PoseBone
  | [] => []
  | b :: bs =>
    if b.name == boneName then f b :: bs else b :: updateFirstBone f boneName bs

/-- Translation of `apply_constraints(source, target, common_bones)`
(NH_SyncTransform.py lines 50-88). -/
def apply_constraints (source target : SArm) (commonBones : List String) : SArm :=
  { target with
    poseBones :=
      commonBones.foldl
        (fun bs n => updateFirstBone (applySyncToBone source n) n bs)
        target.poseBones }

/-- Translation of `remove_constraints(target)` (NH_SyncTransform.py
lines 91-94). -/
def remove_constraints (target : SArm) : SArm :=
  { target with
    poseBones :=
      target.poseBones.map (fun b =>
        { b with constraints := removeExistingConstraints b.constraints }) }

/-- Translation of `NH_OT_ApplySyncTransform.execute` (NH_SyncTransform.py
lines 106-118): cancel when the source or the target armature is unset,
else apply the sync constraints over the common bone names. -/
def applySyncTransformExec (s : SyncScene) : ExecResult × SyncScene :=
  match s.source, s.target with
  | some source, some target =>
    (ExecResult.finished,
      { s with
        target := some (apply_constraints source target (get_common_bone_names source target)) })
  | _, _ => (ExecResult.cancelled, s)

/-- Translation of `NH_OT_RemoveSyncTransform.execute`
(NH_SyncTransform.py lines 126-134): cancel when the target armature is
unset, else remove the sync constraints from every pose bone. -/
def removeSyncTransformExec (s : SyncScene) : ExecResult × SyncScene :=
  match s.target with
  | some target => (ExecResult.finished, { s with target := some (remove_constraints target) })
  | none => (ExecResult.cancelled, s)

/-! ## General helper lemmas -/

/-- Membership characterization of `get_common_bone_names`, shared by the
claims about common-bone detection and constraint application. -/
lemma mem_get_common_bone_names (armature1 armature2 : SArm) (n : String) :
    n ∈ get_common_bone_names armature1 armature2 ↔
      n ∈ armature1.poseBones.map (fun b => b.name) ∧
        n ∈ armature2.poseBones.map (fun b => b.name) := by
  unfold get_common_bone_names
  rw [List.mem_mergeSort, List.mem_filter, List.mem_dedup]
  simp

/-- The common-bone list has no duplicates. -/
lemma nodup_get_common_bone_names (armature1 armature2 : SArm) :
    (get_common_bone_names armature1 armature2).Nodup := by
  unfold get_common_bone_names
  exact (List.mergeSort_perm _ _).nodup_iff.mpr (List.Nodup.filter _ (List.nodup_dedup _))

/-- Folding the remove-if-matching step over a snapshot never touches a
leading element the predicate rejects. -/
lemma foldl_erase_cons {α : Type} [DecidableEq α] (p : α → Bool) (snap : List α)
    (a : α) (ha : p a = false) :
    ∀ cur : List α,
      snap.foldl (fun cur c => if p c then cur.erase c else cur) (a :: cur)
        = a :: snap.foldl (fun cur c => if p c then cur.erase c else cur) cur := by
  induction snap with
  | nil => intro cur; rfl
  | cons c cs ih =>
    intro cur
    rcases hc : p c with _ | _
    · simp only [List.foldl_cons, hc, Bool.false_eq_true, if_false]
      exact ih cur
    · have hac : (a == c) = false := by
        rcases h : a == c with _ | _
        · rfl
        · rw [beq_iff_eq] at h; subst h; rw [ha] at hc; cases hc
      simp only [List.foldl_cons, hc, if_true, List.erase_cons, hac, Bool.false_eq_true,
        if_false]
      exact ih (cur.erase c)

/-- Iterating over a snapshot of a list and removing (by first
occurrence) each element the predicate accepts is the same as filtering
the predicate out. -/
lemma foldl_erase_eq_filter {α : Type} [DecidableEq α] (p : α → Bool) (l : List α) :
    l.foldl (fun cur c => if p c then cur.erase c else cur) l
      = l.filter (fun c => !p c) := by
  induction l with
  | nil => rfl
  | cons a t ih =>
    rcases ha : p a with _ | _
    · simp only [List.foldl_cons, ha, Bool.false_eq_true, if_false]
      rw [foldl_erase_cons p t a ha t, ih]
      simp [List.filter_cons, ha]
    · have haa : (a == a) = true := by rw [beq_iff_eq]
      simp only [List.foldl_cons, ha, if_true, List.erase_cons, haa]
      rw [ih]
      simp [List.filter_cons, ha]

/-- Specialization to the constraint-removal helper of
NH_SyncTransform.py. -/
lemma removeExistingConstraints_eq_filter (cs : List Constraint) :
    removeExistingConstraints cs = cs.filter (fun c => !isSyncName c.name) :=
  foldl_erase_eq_filter _ cs

/-! ## Claim theorems -/

/-- C4: a name is returned by `get_common_bone_names` if and only if it
is a pose-bone name of both armatures, so the returned list is exactly
the set intersection of the two pose-bone name sets. -/
theorem common_bone_names_iff_in_both (armature1 armature2 : SArm) (n : String) :
    n ∈ get_common_bone_names armature1 armature2 ↔
      ((∃ b ∈ armature1.poseBones, b.name = n) ∧ ∃ b ∈ armature2.poseBones, b.name = n) := by
  rw [mem_get_common_bone_names]
  simp [eq_comm]

/-- C7: sync-constraint removal (the helper shared by the Remove
Transform Sync operator and the removal step inside apply) keeps a
constraint if and only if its name does not start with one of the three
sync prefixes, preserving all other constraints in order; the Remove
operator applies exactly this to every pose bone of the target. -/
theorem sync_removal_removes_exactly_prefixed (cs : List Constraint) (target : SArm) :
    (removeExistingConstraints cs = cs.filter (fun c => !isSyncName c.name)) ∧
    (∀ c, c ∈ removeExistingConstraints cs ↔ c ∈ cs ∧ isSyncName c.name = false) ∧
    ((remove_constraints target).poseBones = target.poseBones.map (fun b =>
      { b with constraints := b.constraints.filter (fun c => !isSyncName c.name) })) := by
  refine ⟨removeExistingConstraints_eq_filter cs, ?_, ?_⟩
  · intro c
    rw [removeExistingConstraints_eq_filter, List.mem_filter]
    simp
  · unfold remove_constraints
    simp only [List.map_inj_left]
    intro b _
    rw [removeExistingConstraints_eq_filter]

/-- Sum of a list of nonnegative rationals is nonzero exactly when some
element is strictly positive. -/
lemma sum_ne_zero_iff_exists_pos (l : List ℚ) (h : ∀ w ∈ l, 0 ≤ w) :
    l.sum ≠ 0 ↔ ∃ w ∈ l, 0 < w := by
  induction l with
  | nil => simp
  | cons a t ih =>
    have ha : 0 ≤ a := h a (List.mem_cons_self a t)
    have ht : ∀ w ∈ t, 0 ≤ w := fun w hw => h w (List.mem_cons_of_mem a hw)
    have hts : 0 ≤ t.sum := List.sum_nonneg ht
    rw [List.sum_cons]
    constructor
    · intro hs
      by_cases haz : a = 0
      · subst haz
        rw [zero_add] at hs
        obtain ⟨w, hw, hwp⟩ := (ih ht).mp hs
        exact ⟨w, List.mem_cons_of_mem _ hw, hwp⟩
      · exact ⟨a, List.mem_cons_self a t, lt_of_le_of_ne ha (Ne.symm haz)⟩
    · rintro ⟨w, hw, hwp⟩ hz
      rcases List.mem_cons.mp hw with rfl | hwt
      · nlinarith
      · have hws : w ≤ t.sum := List.single_le_sum ht w hwt
        nlinarith

/-- Every weight returned by `get_vertex_group_weights` is a weight of
some vertex entry of the mesh. -/
lemma gvgw_nonneg (mesh : BObj) (name : String)
    (h : ∀ v ∈ mesh.vertices, ∀ g ∈ v.groups, 0 ≤ g.weight) :
    ∀ w ∈ get_vertex_group_weights mesh name, 0 ≤ w := by
  intro w hw
  unfold get_vertex_group_weights at hw
  rcases hfi : mesh.vertexGroups.findIdx? (fun vg => vg.name == name) with _ | idx
  · rw [hfi] at hw; cases hw
  · rw [hfi] at hw
    simp only [List.mem_map, List.mem_flatMap, List.mem_filter] at hw
    obtain ⟨g, ⟨v, hv, hg, _⟩, rfl⟩ := hw
    exact h v hv g hg

/-- Comparator for the refinement claim, following the spec's words: the
weight-sum-based usage detection calls a vertex group "used" when the
sum of its weight entries is nonzero. -/
def specWeightSumUsed (obj : BObj) (group_name : String) : Prop :=
  (get_vertex_group_weights obj group_name).sum ≠ 0

/-- Weight sum of the entries carrying a given group index, the
index-level analogue of `specWeightSumUsed` matching the per-index
detection of the Delete Unused Vertex Groups operator. -/
def specIdxWeightSum (mesh : BObj) (i : Nat) : ℚ :=
  ((mesh.vertices.flatMap (fun v => v.groups.filter (fun g => g.group == i))).map
    (fun g => g.weight)).sum

/-- C6: on meshes whose weight entries are all nonnegative, the spec's
weight-sum-based detection (sum of a group's weight entries nonzero)
classifies each vertex group exactly as the implementations do: the
any-positive-weight test of Select Unused Bones, and the used-index
collection of Delete Unused Vertex Groups. -/
theorem weight_sum_detection_matches (mesh : BObj)
    (h : ∀ v ∈ mesh.vertices, ∀ g ∈ v.groups, 0 ≤ g.weight) :
    (∀ name, specWeightSumUsed mesh name ↔
      (get_vertex_group_weights mesh name).any (fun w => decide (0 < w)) = true) ∧
    (∀ i, specIdxWeightSum mesh i ≠ 0 ↔ i ∈ usedGroupIdxs mesh) := by
  constructor
  · intro name
    rw [specWeightSumUsed, sum_ne_zero_iff_exists_pos _ (gvgw_nonneg mesh name h)]
    simp [List.any_eq_true]
  · intro i
    have hnn : ∀ w ∈ (mesh.vertices.flatMap
        (fun v => v.groups.filter (fun g => g.group == i))).map (fun g => g.weight), 0 ≤ w := by
      intro w hw
      simp only [List.mem_map, List.mem_flatMap, List.mem_filter] at hw
      obtain ⟨g, ⟨v, hv, hg, _⟩, rfl⟩ := hw
      exact h v hv g hg
    rw [specIdxWeightSum, sum_ne_zero_iff_exists_pos _ hnn]
    simp only [usedGroupIdxs, List.mem_map, List.mem_flatMap, List.mem_filter,
      decide_eq_true_eq, beq_iff_eq]
    constructor
    · rintro ⟨w, ⟨g, ⟨v, hv, hg, hgi⟩, rfl⟩, hpos⟩
      exact ⟨v, hv, g, ⟨hg, hpos⟩, hgi⟩
    · rintro ⟨v, hv, g, ⟨hg, hpos⟩, hgi⟩
      exact ⟨g.weight, ⟨g, ⟨v, hv, hg, hgi⟩, rfl⟩, hpos⟩

/-- Concrete one-vertex mesh for the C6 witness. -/
def wmesh6 : BObj :=
  ⟨"Cube", "MESH", [], [⟨"Bone"⟩], [⟨[⟨0, 1⟩]⟩]⟩

/-- Witness for C6 at a concrete mesh. -/
theorem weight_sum_detection_matches_witness :
    (∀ v ∈ wmesh6.vertices, ∀ g ∈ v.groups, 0 ≤ g.weight) ∧
    (specWeightSumUsed wmesh6 "Bone" ↔
      (get_vertex_group_weights wmesh6 "Bone").any (fun w => decide (0 < w)) = true) ∧
    (specIdxWeightSum wmesh6 0 ≠ 0 ↔ 0 ∈ usedGroupIdxs wmesh6) :=
  ⟨by decide,
   (weight_sum_detection_matches wmesh6 (by decide)).1 "Bone",
   (weight_sum_detection_matches wmesh6 (by decide)).2 0⟩

/-- With duplicate-free group names, the index found for the name of the
group sitting at position `i` is `i` itself. -/
lemma findIdx?_name_of_nodup (l : List VertexGroup) (i : Nat) (vg : VertexGroup)
    (hnd : (l.map (fun x => x.name)).Nodup) (hi : l[i]? = some vg) :
    l.findIdx? (fun x => x.name == vg.name) = some i := by
  obtain ⟨hlen, hval⟩ := List.getElem?_eq_some_iff.mp hi
  rw [List.findIdx?_eq_some_iff_getElem]
  refine ⟨hlen, by simp [hval], ?_⟩
  intro j hji
  have hj : j < l.length := Nat.lt_trans hji hlen
  have hj' : j < (l.map (fun x => x.name)).length := by simpa using hj
  have hi' : i < (l.map (fun x => x.name)).length := by simpa using hlen
  simp only [Bool.not_eq_true, beq_eq_false_iff_ne, ne_eq]
  intro hcontra
  have hmapj : (l.map (fun x => x.name))[j] = (l.map (fun x => x.name))[i] := by
    simp only [List.getElem_map]
    rw [hcontra, hval]
  have := hnd.getElem_inj_iff.mp hmapj
  omega

/-- C1: in the per-mesh usage-detection step, the name of the vertex
group at position `i` is marked used if and only if some vertex of the
mesh carries a strictly positive weight entry for group index `i`
(vertex-group names being unique within a mesh, as the host enforces). -/
theorem used_bone_iff_positive_weight (mesh : BObj) (i : Nat) (vg : VertexGroup)
    (hnd : (mesh.vertexGroups.map (fun x => x.name)).Nodup)
    (hi : mesh.vertexGroups[i]? = some vg) :
    vg.name ∈ usedBonesOfMesh mesh ↔
      ∃ v ∈ mesh.vertices, ∃ g ∈ v.groups, g.group = i ∧ 0 < g.weight := by
  have hfind := findIdx?_name_of_nodup mesh.vertexGroups i vg hnd hi
  have hgv : get_vertex_group_weights mesh vg.name =
      (mesh.vertices.flatMap (fun v => v.groups.filter (fun g => g.group == i))).map
        (fun g => g.weight) := by
    unfold get_vertex_group_weights
    rw [hfind]
  constructor
  · intro hmem
    simp only [usedBonesOfMesh, List.mem_map, List.mem_filter] at hmem
    obtain ⟨x, ⟨hxmem, hxpred⟩, hxname⟩ := hmem
    rw [hxname, hgv] at hxpred
    simp only [List.any_eq_true, List.mem_map, List.mem_flatMap, List.mem_filter,
      decide_eq_true_eq, beq_iff_eq] at hxpred
    obtain ⟨w, ⟨g, ⟨v, hv, hg, hgi⟩, rfl⟩, hpos⟩ := hxpred
    exact ⟨v, hv, g, hg, hgi, hpos⟩
  · rintro ⟨v, hv, g, hg, hgi, hpos⟩
    simp only [usedBonesOfMesh, List.mem_map, List.mem_filter]
    refine ⟨vg, ⟨List.getElem?_mem hi, ?_⟩, rfl⟩
    rw [hgv]
    simp only [List.any_eq_true, List.mem_map, List.mem_flatMap, List.mem_filter,
      decide_eq_true_eq, beq_iff_eq]
    exact ⟨g.weight, ⟨g, ⟨v, hv, hg, hgi⟩, rfl⟩, hpos⟩

/-- Concrete one-vertex mesh for the C1 witness. -/
def wmesh1 : BObj :=
  ⟨"Body", "MESH", [], [⟨"Hip"⟩, ⟨"Arm"⟩], [⟨[⟨1, 1/2⟩]⟩]⟩

/-- Witness for C1 at a concrete mesh. -/
theorem used_bone_iff_positive_weight_witness :
    (wmesh1.vertexGroups.map (fun x => x.name)).Nodup ∧
    wmesh1.vertexGroups[1]? = some ⟨"Arm"⟩ ∧
    (VertexGroup.name ⟨"Arm"⟩ ∈ usedBonesOfMesh wmesh1 ↔
      ∃ v ∈ wmesh1.vertices, ∃ g ∈ v.groups, g.group = 1 ∧ 0 < g.weight) :=
  ⟨by decide, by decide,
   used_bone_iff_positive_weight wmesh1 1 ⟨"Arm"⟩ (by decide) (by decide)⟩

/-- Acyclicity of an armature's parent relation: no bone returns to
itself by following parent links (any cycle through the finite bone
collection would have period at most the number of bones, so the bound
on `k` loses no generality). -/
def AcyclicBones (bones : List DataBone) : Prop :=
  ∀ b ∈ bones, ∀ k ∈ List.range bones.length,
    (boneStep bones)^[k + 1] (some b) ≠ some b

/-- A parent step lands inside the armature's bone collection. -/
lemma boneStep_mem (bones : List DataBone) (ob : Option DataBone) (b' : DataBone)
    (h : boneStep bones ob = some b') : b' ∈ bones := by
  cases ob with
  | none => cases h
  | some b =>
    cases hp : b.parent with
    | none => simp [boneStep, hp] at h
    | some p =>
      simp only [boneStep, hp] at h
      exact List.mem_of_find?_eq_some h

/-- After at least one parent step, the current bone is a member of the
bone collection. -/
lemma boneStep_iter_mem (bones : List DataBone) (ob : Option DataBone) (k : Nat)
    (b' : DataBone) (h : (boneStep bones)^[k + 1] ob = some b') : b' ∈ bones := by
  rw [Function.iterate_succ_apply'] at h
  exact boneStep_mem bones _ b' h

/-- The finished state of the walk is absorbing. -/
lemma boneStep_iter_none (bones : List DataBone) (k : Nat) :
    (boneStep bones)^[k] none = none := by
  induction k with
  | zero => rfl
  | succ k ih => rw [Function.iterate_succ_apply]; exact ih

/-- Once the walk reaches the finished state it stays there. -/
lemma boneStep_iter_none_mono (bones : List DataBone) (ob : Option DataBone) (j k : Nat)
    (hjk : j ≤ k) (h : (boneStep bones)^[j] ob = none) :
    (boneStep bones)^[k] ob = none := by
  obtain ⟨d, rfl⟩ := Nat.exists_eq_add_of_le hjk
  rw [Nat.add_comm, Function.iterate_add_apply, h, boneStep_iter_none]

/-- Two distinct times at which the walk visits the same bone contradict
acyclicity. -/
lemma boneStep_no_revisit (bones : List DataBone) (h : AcyclicBones bones)
    (ob : Option DataBone) (a b : Nat) (hab : a < b) (hb : b ≤ bones.length)
    (x : DataBone) (hx1 : (boneStep bones)^[a + 1] ob = some x)
    (hx2 : (boneStep bones)^[b + 1] ob = some x) : False := by
  have hxmem : x ∈ bones := boneStep_iter_mem bones ob a x hx1
  have hcycle : (boneStep bones)^[b - a] (some x) = some x := by
    have : (boneStep bones)^[(b - a) + (a + 1)] ob = some x := by
      have he : (b - a) + (a + 1) = b + 1 := by omega
      rw [he]; exact hx2
    rw [Function.iterate_add_apply, hx1] at this
    exact this
  have hk : (b - a - 1) ∈ List.range bones.length := by
    rw [List.mem_range]; omega
  have := h x hxmem (b - a - 1) hk
  rw [show b - a - 1 + 1 = b - a by omega] at this
  exact this hcycle

/-- Core termination lemma: with an acyclic parent relation, the walk
reaches the finished state from any start within `bones.length + 1`
steps (pigeonhole over the visited bones). -/
lemma boneStep_iter_terminates (bones : List DataBone) (h : AcyclicBones bones)
    (ob : Option DataBone) :
    (boneStep bones)^[bones.length + 1] ob = none := by
  by_contra hne
  have hsome : ∀ j, j ≤ bones.length + 1 → (boneStep bones)^[j] ob ≠ none := by
    intro j hj hnone
    exact hne (boneStep_iter_none_mono bones ob j (bones.length + 1) hj hnone)
  have hfval : ∀ j : Fin (bones.length + 1),
      ∃ x, (boneStep bones)^[j.val + 1] ob = some x := by
    intro j
    rcases hx : (boneStep bones)^[j.val + 1] ob with _ | x
    · exact absurd hx (hsome (j.val + 1) (by omega))
    · exact ⟨x, rfl⟩
  classical
  choose f hf using hfval
  have hfmem : ∀ j, f j ∈ bones := fun j => boneStep_iter_mem bones ob j.val (f j) (hf j)
  have hcard : bones.toFinset.card < (Finset.univ : Finset (Fin (bones.length + 1))).card := by
    have h1 := bones.toFinset_card_le
    rw [Finset.card_univ, Fintype.card_fin]
    omega
  obtain ⟨j1, -, j2, -, hne12, heq⟩ :=
    Finset.exists_ne_map_eq_of_card_lt_of_maps_to hcard
      (fun j _ => List.mem_toFinset.mpr (hfmem j))
  have hv : j1.val ≠ j2.val := fun hv => hne12 (Fin.ext hv)
  rcases hv.lt_or_lt with hlt | hlt
  · exact boneStep_no_revisit bones h ob j1.val j2.val hlt (by omega) (f j1) (hf j1)
      (by rw [heq]; exact hf j2)
  · exact boneStep_no_revisit bones h ob j2.val j1.val hlt (by omega) (f j2) (hf j2)
      (by rw [← heq]; exact hf j1)

/-- C9: under an acyclic parent relation, the ancestor-expansion walk of
Select Unused Bones (`while bone: ... bone = bone.parent`) terminates
from every start — iterating the parent step `bones.length + 1` times
from any looked-up bone always reaches the finished state, so the fuel
given to `chainNames` suffices; every other loop of both add-ons is a
structural pass over a finite list. -/
theorem ancestor_walk_terminates (bones : List DataBone) (h : AcyclicBones bones)
    (start : String) :
    (boneStep bones)^[bones.length + 1] (bonesGet bones start) = none :=
  boneStep_iter_terminates bones h (bonesGet bones start)

/-- Concrete three-bone chain for the C9 witness. -/
def wbones9 : List DataBone :=
  [⟨"Hip", none⟩, ⟨"Spine", some "Hip"⟩, ⟨"Head", some "Spine"⟩]

/-- Witness for C9 on a concrete armature. -/
theorem ancestor_walk_terminates_witness :
    AcyclicBones wbones9 ∧
    (boneStep wbones9)^[wbones9.length + 1] (bonesGet wbones9 "Head") = none :=
  ⟨by unfold AcyclicBones; decide,
   ancestor_walk_terminates wbones9 (by unfold AcyclicBones; decide) "Head"⟩

/-- Membership in the fuelled walk, characterized by parent-step
iterates below the fuel. -/
lemma mem_chainNames_iff (bones : List DataBone) (fuel : Nat) (ob : Option DataBone)
    (n : String) :
    n ∈ chainNames bones fuel ob ↔
      ∃ k < fuel, ∃ b, (boneStep bones)^[k] ob = some b ∧ b.name = n := by
  induction fuel generalizing ob with
  | zero =>
    cases ob <;> simp [chainNames]
  | succ f ih =>
    cases ob with
    | none =>
      simp only [chainNames, List.not_mem_nil, false_iff]
      rintro ⟨k, -, b, hb, -⟩
      rw [boneStep_iter_none] at hb
      cases hb
    | some b =>
      simp only [chainNames, List.mem_cons, ih]
      constructor
      · rintro (rfl | ⟨k, hk, b', hb', hn⟩)
        · exact ⟨0, Nat.succ_pos f, b, rfl, rfl⟩
        · refine ⟨k + 1, by omega, b', ?_, hn⟩
          rw [Function.iterate_succ_apply]
          exact hb'
      · rintro ⟨k, hk, b', hb', hn⟩
        cases k with
        | zero =>
          left
          cases hb'
          exact hn.symm
        | succ k =>
          right
          refine ⟨k, by omega, b', ?_, hn⟩
          rw [Function.iterate_succ_apply] at hb'
          exact hb'

/-- Membership in a fold that appends contributions per element. -/
lemma mem_foldl_append {α β : Type} (g : β → List α) (l : List β) (init : List α) (x : α) :
    x ∈ l.foldl (fun acc b => acc ++ g b) init ↔ x ∈ init ∨ ∃ b ∈ l, x ∈ g b := by
  induction l generalizing init with
  | nil => simp
  | cons a t ih =>
    rw [List.foldl_cons, ih]
    simp only [List.mem_append, List.mem_cons]
    constructor
    · rintro ((hx | hx) | ⟨b, hb, hx⟩)
      · exact Or.inl hx
      · exact Or.inr ⟨a, Or.inl rfl, hx⟩
      · exact Or.inr ⟨b, Or.inr hb, hx⟩
    · rintro (hx | ⟨b, rfl | hb, hx⟩)
      · exact Or.inl (Or.inl hx)
      · exact Or.inl (Or.inr hx)
      · exact Or.inr ⟨b, hb, hx⟩

/-- Membership in the hierarchy expansion, fuel still explicit. -/
lemma mem_expandHierarchy_iff (bones : List DataBone) (used : List String) (n : String) :
    n ∈ expandHierarchy bones used ↔
      ∃ u ∈ used, n ∈ chainNames bones (bones.length + 1) (bonesGet bones u) := by
  unfold expandHierarchy
  rw [mem_foldl_append]
  simp

/-- C2 counterexample: a used vertex-group name that names no bone of
the armature is dropped by the hierarchy expansion, so the expanded set
does not include every name of the used set. -/
theorem expand_drops_nonbone_used_name :
    "Ghost" ∈ (["Ghost"] : List String) ∧
      "Ghost" ∉ expandHierarchy [⟨"Root", none⟩] ["Ghost"] := by
  constructor
  · exact List.mem_singleton.mpr rfl
  · decide

/-- C2 (amended): with an acyclic parent relation, the expanded set
contains exactly the names reachable from a used name's looked-up bone
by following parent links zero or more times: every used name that
names a bone of the armature is kept, together with the names of all
its ancestors, and nothing else — in particular a used name naming no
bone of the armature contributes nothing and is dropped. -/
theorem expandHierarchy_mem (bones : List DataBone) (h : AcyclicBones bones)
    (used : List String) (n : String) :
    n ∈ expandHierarchy bones used ↔
      ∃ u ∈ used, ∃ k b, (boneStep bones)^[k] (bonesGet bones u) = some b ∧ b.name = n := by
  rw [mem_expandHierarchy_iff]
  constructor
  · rintro ⟨u, hu, hc⟩
    obtain ⟨k, -, b, hb, hn⟩ := (mem_chainNames_iff bones _ _ n).mp hc
    exact ⟨u, hu, k, b, hb, hn⟩
  · rintro ⟨u, hu, k, b, hb, hn⟩
    refine ⟨u, hu, (mem_chainNames_iff bones _ _ n).mpr ⟨k, ?_, b, hb, hn⟩⟩
    by_contra hk
    push_neg at hk
    have hnone := boneStep_iter_none_mono bones (bonesGet bones u) (bones.length + 1) k hk
      (boneStep_iter_terminates bones h (bonesGet bones u))
    rw [hnone] at hb
    cases hb

/-- Concrete two-bone armature for the C2 witness. -/
def wbones2 : List DataBone := [⟨"Root", none⟩, ⟨"Chest", some "Root"⟩]

/-- Witness for C2's amended theorem on a concrete armature: the unused
parent of a used bone enters the expanded set. -/
theorem expandHierarchy_mem_witness :
    AcyclicBones wbones2 ∧
    ("Root" ∈ expandHierarchy wbones2 ["Chest"] ↔
      ∃ u ∈ (["Chest"] : List String), ∃ k b,
        (boneStep wbones2)^[k] (bonesGet wbones2 u) = some b ∧ b.name = "Root") :=
  ⟨by unfold AcyclicBones; decide,
   expandHierarchy_mem wbones2 (by unfold AcyclicBones; decide) ["Chest"] "Root"⟩

/-- Mesh with the chosen armature modifier, for the C5 counterexample. -/
def cxMesh1 : BObj := ⟨"M1", "MESH", [⟨"Deform", "ARMATURE", some "Arm"⟩], [], []⟩

/-- Mesh without any modifier, for the C5 counterexample. -/
def cxMesh2 : BObj := ⟨"M2", "MESH", [], [], []⟩

/-- Scene where the chosen modifier sits on only one of two selected
meshes, for the C5 counterexample. -/
def cxScene5 : BCScene :=
  ⟨[cxMesh1, cxMesh2], [⟨"Arm", [], []⟩], "OBJECT", none, "Deform", true⟩

/-- C5 counterexample: with two meshes selected and the chosen armature
modifier present on only one of them, the modifier is not consistently
present (its occurrence count differs from the mesh count, so it is not
in the `common` list), yet Select Unused Bones returns FINISHED instead
of the CANCELLED the claim requires. -/
theorem select_finishes_despite_inconsistent_modifier :
    modifier_name_count (selectedMeshes cxScene5) cxScene5.modifierName ≠
        (selectedMeshes cxScene5).length ∧
      (selectUnusedBonesExec cxScene5).1 = ExecResult.finished := by
  constructor
  · decide
  · decide

/-- C5 (amended): each operator returns CANCELLED exactly when its
validation fails and FINISHED otherwise, where Select Unused Bones'
validation is: some mesh is selected and `mod_map` maps the chosen
modifier name to an armature object, i.e. at least one selected mesh
(not necessarily all) carries an armature-type modifier of that name
with its object set; Delete Selected Bones requires armature Edit Mode;
Delete Unused Vertex Groups requires a selected mesh; Apply Transform
Sync requires both armatures set; Remove Transform Sync requires the
target set. -/
theorem operator_cancel_iff_validation_fails (s : BCScene) (t : SyncScene) :
    ((selectUnusedBonesExec s).1 = ExecResult.cancelled ↔
      (selectedMeshes s = [] ∨
        find_common_armature_modifier_map (selectedMeshes s) s.modifierName = none)) ∧
    ((selectUnusedBonesExec s).1 = ExecResult.finished ↔
      ¬(selectedMeshes s = [] ∨
        find_common_armature_modifier_map (selectedMeshes s) s.modifierName = none)) ∧
    ((deleteSelectedBonesExec s).1 = ExecResult.cancelled ↔ s.mode ≠ "EDIT_ARMATURE") ∧
    ((deleteSelectedBonesExec s).1 = ExecResult.finished ↔ s.mode = "EDIT_ARMATURE") ∧
    ((deleteUnusedVertexGroupsExec s).1 = ExecResult.cancelled ↔ selectedMeshes s = []) ∧
    ((applySyncTransformExec t).1 = ExecResult.cancelled ↔
      (t.source = none ∨ t.target = none)) ∧
    ((applySyncTransformExec t).1 = ExecResult.finished ↔
      (t.source ≠ none ∧ t.target ≠ none)) ∧
    ((removeSyncTransformExec t).1 = ExecResult.cancelled ↔ t.target = none) := by
  refine ⟨?_, ?_, ?_, ?_, ?_, ?_, ?_, ?_⟩
  · unfold selectUnusedBonesExec
    rcases h1 : (selectedMeshes s).isEmpty with _ | _
    · have h1' : selectedMeshes s ≠ [] := by
        intro hc; rw [hc] at h1; cases h1
      rcases h2 : find_common_armature_modifier_map (selectedMeshes s) s.modifierName
        with _ | armName
      · simp [h1, h2, h1']
      · simp [h1, h2, h1']
    · have h1' : selectedMeshes s = [] := List.isEmpty_iff.mp h1
      simp [h1, h1']
  · unfold selectUnusedBonesExec
    rcases h1 : (selectedMeshes s).isEmpty with _ | _
    · have h1' : selectedMeshes s ≠ [] := by
        intro hc; rw [hc] at h1; cases h1
      rcases h2 : find_common_armature_modifier_map (selectedMeshes s) s.modifierName
        with _ | armName
      · simp [h1, h2, h1']
      · simp [h1, h2, h1']
    · have h1' : selectedMeshes s = [] := List.isEmpty_iff.mp h1
      simp [h1, h1']
  · unfold deleteSelectedBonesExec
    rcases h1 : s.mode == "EDIT_ARMATURE" with _ | _
    · simp only [beq_eq_false_iff_ne, ne_eq] at h1
      simp [h1]
    · rw [beq_iff_eq] at h1
      simp [h1]
  · unfold deleteSelectedBonesExec
    rcases h1 : s.mode == "EDIT_ARMATURE" with _ | _
    · simp only [beq_eq_false_iff_ne, ne_eq] at h1
      simp [h1]
    · rw [beq_iff_eq] at h1
      simp [h1]
  · unfold deleteUnusedVertexGroupsExec
    rcases h1 : (selectedMeshes s).isEmpty with _ | _
    · have h1' : selectedMeshes s ≠ [] := by
        intro hc; rw [hc] at h1; cases h1
      simp [h1, h1']
    · have h1' : selectedMeshes s = [] := List.isEmpty_iff.mp h1
      simp [h1, h1']
  · rcases hsrc : t.source with _ | src <;> rcases htgt : t.target with _ | tgt <;>
      simp [applySyncTransformExec, hsrc, htgt]
  · rcases hsrc : t.source with _ | src <;> rcases htgt : t.target with _ | tgt <;>
      simp [applySyncTransformExec, hsrc, htgt]
  · rcases htgt : t.target with _ | tgt <;> simp [removeSyncTransformExec, htgt]

/-- C10: every validation check runs before the first mutation, so an
operator that returns CANCELLED leaves the scene state exactly as it
found it, for all five operators of the two add-ons. -/
theorem cancelled_leaves_scene_unchanged (s : BCScene) (t : SyncScene) :
    ((selectUnusedBonesExec s).1 = ExecResult.cancelled → (selectUnusedBonesExec s).2 = s) ∧
    ((deleteSelectedBonesExec s).1 = ExecResult.cancelled →
      (deleteSelectedBonesExec s).2 = s) ∧
    ((deleteUnusedVertexGroupsExec s).1 = ExecResult.cancelled →
      (deleteUnusedVertexGroupsExec s).2 = s) ∧
    ((applySyncTransformExec t).1 = ExecResult.cancelled → (applySyncTransformExec t).2 = t) ∧
    ((removeSyncTransformExec t).1 = ExecResult.cancelled →
      (removeSyncTransformExec t).2 = t) := by
  refine ⟨?_, ?_, ?_, ?_, ?_⟩
  · unfold selectUnusedBonesExec
    rcases h1 : (selectedMeshes s).isEmpty with _ | _
    · rcases h2 : find_common_armature_modifier_map (selectedMeshes s) s.modifierName
        with _ | armName
      · simp [h1, h2]
      · simp [h1, h2]
    · simp [h1]
  · unfold deleteSelectedBonesExec
    rcases h1 : s.mode == "EDIT_ARMATURE" with _ | _
    · simp [h1]
    · simp [h1]
  · unfold deleteUnusedVertexGroupsExec
    rcases h1 : (selectedMeshes s).isEmpty with _ | _
    · simp [h1]
    · simp [h1]
  · rcases hsrc : t.source with _ | src <;> rcases htgt : t.target with _ | tgt <;>
      simp [applySyncTransformExec, hsrc, htgt]
  · rcases htgt : t.target with _ | tgt <;> simp [removeSyncTransformExec, htgt]

/-- Scene with nothing selected, wrong mode and empty sync pointers, for
the C10 witness. -/
def wScene10 : BCScene := ⟨[], [], "OBJECT", none, "Deform", true⟩

/-- Sync scene with both pointers unset, for the C10 witness. -/
def wSync10 : SyncScene := ⟨none, none⟩

/-- Witness for C10: concrete cancelled runs of all five operators
leave their scenes untouched. -/
theorem cancelled_leaves_scene_unchanged_witness :
    (selectUnusedBonesExec wScene10).2 = wScene10 ∧
    (deleteSelectedBonesExec wScene10).2 = wScene10 ∧
    (deleteUnusedVertexGroupsExec wScene10).2 = wScene10 ∧
    (applySyncTransformExec wSync10).2 = wSync10 ∧
    (removeSyncTransformExec wSync10).2 = wSync10 :=
  ⟨(cancelled_leaves_scene_unchanged wScene10 wSync10).1 (by decide),
   (cancelled_leaves_scene_unchanged wScene10 wSync10).2.1 (by decide),
   (cancelled_leaves_scene_unchanged wScene10 wSync10).2.2.1 (by decide),
   (cancelled_leaves_scene_unchanged wScene10 wSync10).2.2.2.1 (by decide),
   (cancelled_leaves_scene_unchanged wScene10 wSync10).2.2.2.2 (by decide)⟩

/-- C8: when Select Unused Bones finishes, every edit bone of the chosen
armature gets its selection flag written, and it ends up selected if and
only if its name is missing from the (possibly hierarchy-expanded) used
set, so the selected bones are exactly the unused ones. -/
theorem selected_iff_unused (s : BCScene) (armName : String)
    (hne : selectedMeshes s ≠ [])
    (hm : find_common_armature_modifier_map (selectedMeshes s) s.modifierName
      = some armName) :
    (selectUnusedBonesExec s).1 = ExecResult.finished ∧
    ∀ (i : Nat) (a : ArmObj), s.armatures[i]? = some a → a.name = armName →
      ∃ a' : ArmObj, (selectUnusedBonesExec s).2.armatures[i]? = some a' ∧
        a'.name = a.name ∧ a'.dataBones = a.dataBones ∧
        a'.editBones.length = a.editBones.length ∧
        ∀ (j : Nat) (b : EditBone), a.editBones[j]? = some b →
          ∃ b' : EditBone, a'.editBones[j]? = some b' ∧ b'.name = b.name ∧
            (b'.select = true ↔ b.name ∉ finalUsedBones s armName) := by
  have hempty : (selectedMeshes s).isEmpty = false := by
    rcases h : (selectedMeshes s).isEmpty with _ | _
    · rfl
    · exact absurd (List.isEmpty_iff.mp h) hne
  constructor
  · unfold selectUnusedBonesExec
    simp [hempty, hm]
  · intro i a ha haname
    unfold selectUnusedBonesExec
    simp only [hempty, Bool.false_eq_true, if_false, hm]
    have hbeq : (a.name == armName) = true := beq_iff_eq.mpr haname
    refine ⟨{ a with editBones := a.editBones.map (fun b => { b with select := !(finalUsedBones s armName).contains b.name }) }, ?_, rfl, rfl, by simp, ?_⟩
    · rw [List.getElem?_map, ha, Option.map_some']
      simp [hbeq]
    · intro j b hb
      refine ⟨{ b with select := !(finalUsedBones s armName).contains b.name }, ?_, rfl, ?_⟩
      · rw [List.getElem?_map, hb, Option.map_some']
      · simp

/-- Mesh bound to the armature, for the C8 witness. -/
def wMesh8 : BObj :=
  ⟨"Body", "MESH", [⟨"Deform", "ARMATURE", some "Arm"⟩], [⟨"Hip"⟩], [⟨[⟨0, 1⟩]⟩]⟩

/-- Armature with one used and one unused bone, for the C8 witness. -/
def wArm8 : ArmObj := ⟨"Arm", [⟨"Hip", none⟩], [⟨"Hip", false⟩, ⟨"Tail", false⟩]⟩

/-- Scene for the C8 witness. -/
def wScene8 : BCScene := ⟨[wMesh8], [wArm8], "OBJECT", none, "Deform", true⟩

/-- Witness for C8 on a concrete scene. -/
theorem selected_iff_unused_witness :
    (selectedMeshes wScene8 ≠ []) ∧
    (find_common_armature_modifier_map (selectedMeshes wScene8) wScene8.modifierName
      = some "Arm") ∧
    (selectUnusedBonesExec wScene8).1 = ExecResult.finished :=
  ⟨by decide, by decide, (selected_iff_unused wScene8 "Arm" (by decide) (by decide)).1⟩

/-- Updating the first bone of a given name with the constraint rewrite
preserves the name sequence of the bone list. -/
lemma updateFirstBone_names (source : SArm) (m : String) (bs : List PoseBone) :
    (updateFirstBone (applySyncToBone source m) m bs).map (fun b => b.name)
      = bs.map (fun b => b.name) := by
  induction bs with
  | nil => rfl
  | cons b t ih =>
    rcases hb : b.name == m with _ | _
    · simp only [updateFirstBone, hb, Bool.false_eq_true, if_false, List.map_cons]
      rw [ih]
    · simp only [updateFirstBone, hb, if_true, List.map_cons]
      rfl

/-- Updating the first bone named `m` does not change the first bone
named `n` when the two names differ. -/
lemma find?_updateFirstBone_ne (source : SArm) (m n : String) (bs : List PoseBone)
    (hmn : m ≠ n) :
    (updateFirstBone (applySyncToBone source m) m bs).find? (fun b => b.name == n)
      = bs.find? (fun b => b.name == n) := by
  induction bs with
  | nil => rfl
  | cons b t ih =>
    rcases hb : b.name == m with _ | _
    · simp only [updateFirstBone, hb, Bool.false_eq_true, if_false]
      rcases hbn : b.name == n with _ | _
      · rw [List.find?_cons_of_neg (p := fun (b : PoseBone) => b.name == n) _ (by simp [hbn]),
          List.find?_cons_of_neg (p := fun (b : PoseBone) => b.name == n) _ (by simp [hbn])]
        exact ih
      · rw [List.find?_cons_of_pos (p := fun (b : PoseBone) => b.name == n) _ hbn,
          List.find?_cons_of_pos (p := fun (b : PoseBone) => b.name == n) _ hbn]
    · simp only [updateFirstBone, hb, if_true]
      have hbn : (b.name == n) = false := by
        rw [beq_iff_eq] at hb
        rw [beq_eq_false_iff_ne, hb]
        exact hmn
      have hfn : ((applySyncToBone source m b).name == n) = false := hbn
      rw [List.find?_cons_of_neg (p := fun (b : PoseBone) => b.name == n) _ (by simp [hfn]),
        List.find?_cons_of_neg (p := fun (b : PoseBone) => b.name == n) _ (by simp [hbn])]

/-- Processing common names other than `n` leaves the first bone named
`n` untouched. -/
lemma find?_fold_not_mem (source : SArm) (common : List String) (n : String)
    (hn : n ∉ common) (bs : List PoseBone) :
    ((common.foldl (fun bs m => updateFirstBone (applySyncToBone source m) m bs) bs).find?
        (fun b => b.name == n))
      = bs.find? (fun b => b.name == n) := by
  induction common generalizing bs with
  | nil => rfl
  | cons m rest ih =>
    have hmn : m ≠ n := fun h => hn (h ▸ List.mem_cons_self m rest)
    have hrest : n ∉ rest := fun h => hn (List.mem_cons_of_mem m h)
    rw [List.foldl_cons, ih hrest, find?_updateFirstBone_ne source m n bs hmn]

/-- Updating the first bone named `n` rewrites exactly the bone that the
name lookup returns. -/
lemma find?_updateFirstBone_eq (source : SArm) (n : String) (bs : List PoseBone)
    (b₀ : PoseBone) (hfind : bs.find? (fun b => b.name == n) = some b₀) :
    (updateFirstBone (applySyncToBone source n) n bs).find? (fun b => b.name == n)
      = some (applySyncToBone source n b₀) := by
  induction bs with
  | nil => cases hfind
  | cons b t ih =>
    rcases hb : b.name == n with _ | _
    · rw [List.find?_cons_of_neg (p := fun (b : PoseBone) => b.name == n) _ (by simp [hb])] at hfind
      simp only [updateFirstBone, hb, Bool.false_eq_true, if_false]
      rw [List.find?_cons_of_neg (p := fun (b : PoseBone) => b.name == n) _ (by simp [hb])]
      exact ih hfind
    · rw [List.find?_cons_of_pos (p := fun (b : PoseBone) => b.name == n) _ hb] at hfind
      injection hfind with hb0
      subst hb0
      simp only [updateFirstBone, hb, if_true]
      have hfb : ((applySyncToBone source n b).name == n) = true := hb
      rw [List.find?_cons_of_pos (p := fun (b : PoseBone) => b.name == n) _ hfb]

/-- Folding the per-bone update over a duplicate-free list of common
names rewrites the first bone named `n` exactly once. -/
lemma find?_fold_apply (source : SArm) (common : List String) (n : String)
    (hc : common.Nodup) (hn : n ∈ common) (bs : List PoseBone) (b₀ : PoseBone)
    (hfind : bs.find? (fun b => b.name == n) = some b₀) :
    ((common.foldl (fun bs m => updateFirstBone (applySyncToBone source m) m bs) bs).find?
        (fun b => b.name == n))
      = some (applySyncToBone source n b₀) := by
  induction common generalizing bs with
  | nil => cases hn
  | cons m rest ih =>
    rcases List.mem_cons.mp hn with rfl | hnrest
    · have hrest : n ∉ rest := (List.nodup_cons.mp hc).1
      rw [List.foldl_cons, find?_fold_not_mem source rest n hrest]
      exact find?_updateFirstBone_eq source n bs b₀ hfind
    · have hmn : m ≠ n := by
        rintro rfl
        exact (List.nodup_cons.mp hc).1 hnrest
      rw [List.foldl_cons]
      exact ih (List.nodup_cons.mp hc).2 hnrest _
        (by rw [find?_updateFirstBone_ne source m n bs hmn]; exact hfind)

/-- Names with the rotation prefix are sync names. -/
lemma isSyncName_rot (n : String) : isSyncName (rotPref ++ n) = true := by
  unfold isSyncName pyStartsWith
  rw [String.data_append]
  simp [List.isPrefixOf_iff_prefix, List.prefix_append]

/-- Names with the location prefix are sync names. -/
lemma isSyncName_loc (n : String) : isSyncName (locPref ++ n) = true := by
  unfold isSyncName pyStartsWith
  rw [String.data_append]
  simp [List.isPrefixOf_iff_prefix, List.prefix_append]

/-- Names with the scale prefix are sync names. -/
lemma isSyncName_scl (n : String) : isSyncName (sclPref ++ n) = true := by
  unfold isSyncName pyStartsWith
  rw [String.data_append]
  simp [List.isPrefixOf_iff_prefix, List.prefix_append]

/-- C3: after Apply Transform Sync, for every bone name common to the
source and the target, the target pose bone of that name carries
exactly three sync-prefixed constraints — a copy-rotation named with the
`NH_SYNC_ROT_` prefix, a copy-location with `NH_SYNC_LOC_` and a
copy-scale with `NH_SYNC_SCL_`, each targeting the source armature with
subtarget the same bone name and both target and owner space WORLD —
any previously existing sync-prefixed constraints having been removed
first, while every other constraint is preserved in order. -/
theorem apply_sync_sets_exactly_three (source target : SArm) (n : String)
    (hn : n ∈ get_common_bone_names source target) :
    ∃ b₀ : PoseBone, target.poseBones.find? (fun b => b.name == n) = some b₀ ∧
      ∃ b₁ : PoseBone,
        (apply_constraints source target
              (get_common_bone_names source target)).poseBones.find?
            (fun b => b.name == n) = some b₁ ∧
        b₁.name = b₀.name ∧
        b₁.constraints
          = b₀.constraints.filter (fun c => !isSyncName c.name)
            ++ [⟨rotPref ++ n, "COPY_ROTATION", some source.name, n, "WORLD", "WORLD", true, true, true, some "REPLACE"⟩,
                ⟨locPref ++ n, "COPY_LOCATION", some source.name, n, "WORLD", "WORLD", true, true, true, none⟩,
                ⟨sclPref ++ n, "COPY_SCALE", some source.name, n, "WORLD", "WORLD", true, true, true, none⟩] ∧
        b₁.constraints.filter (fun c => isSyncName c.name)
          = [⟨rotPref ++ n, "COPY_ROTATION", some source.name, n, "WORLD", "WORLD", true, true, true, some "REPLACE"⟩,
             ⟨locPref ++ n, "COPY_LOCATION", some source.name, n, "WORLD", "WORLD", true, true, true, none⟩,
             ⟨sclPref ++ n, "COPY_SCALE", some source.name, n, "WORLD", "WORLD", true, true, true, none⟩] := by
  have hmem : n ∈ target.poseBones.map (fun b => b.name) :=
    ((mem_get_common_bone_names source target n).mp hn).2
  obtain ⟨b, hbmem, hbname⟩ := List.mem_map.mp hmem
  have hex : ∃ b₀, target.poseBones.find? (fun b => b.name == n) = some b₀ := by
    rw [← Option.isSome_iff_exists]
    exact List.find?_isSome.mpr ⟨b, hbmem, by simp [hbname]⟩
  obtain ⟨b₀, hfind⟩ := hex
  have hfiltered :
      (b₀.constraints.filter (fun c => !isSyncName c.name)).filter
        (fun c => isSyncName c.name) = [] := by
    rw [List.filter_filter]
    apply List.filter_eq_nil_iff.mpr
    intro c _
    rcases hc : isSyncName c.name with _ | _ <;> simp [hc]
  refine ⟨b₀, hfind, applySyncToBone source n b₀, ?_, rfl, ?_, ?_⟩
  · exact find?_fold_apply source (get_common_bone_names source target) n
      (nodup_get_common_bone_names source target) hn target.poseBones b₀ hfind
  · rw [show (applySyncToBone source n b₀).constraints
        = removeExistingConstraints b₀.constraints ++ syncConstraintsFor source n from rfl,
      removeExistingConstraints_eq_filter]
    rfl
  · rw [show (applySyncToBone source n b₀).constraints
        = removeExistingConstraints b₀.constraints ++ syncConstraintsFor source n from rfl,
      removeExistingConstraints_eq_filter, List.filter_append, hfiltered, List.nil_append]
    simp [syncConstraintsFor, newConstraint, isSyncName_rot, isSyncName_loc, isSyncName_scl]

/-- Source armature for the C3 witness. -/
def wSrc3 : SArm := ⟨"SrcArm", [⟨"Hip", []⟩]⟩

/-- Target armature for the C3 witness, with a stale sync constraint and
an unrelated constraint on the common bone. -/
def wTgt3 : SArm :=
  ⟨"TgtArm",
   [⟨"Hip",
     [⟨"NH_SYNC_ROT_Hip", "COPY_ROTATION", some "OldArm", "Hip", "WORLD", "WORLD", true, true, true, some "REPLACE"⟩,
      ⟨"Limit", "LIMIT_ROTATION", none, "", "LOCAL", "LOCAL", true, true, true, none⟩]⟩]⟩

/-- Witness for C3 on concrete armatures. -/
theorem apply_sync_sets_exactly_three_witness :
    ("Hip" ∈ get_common_bone_names wSrc3 wTgt3) ∧
    (∃ b₀ : PoseBone, wTgt3.poseBones.find? (fun b => b.name == "Hip") = some b₀ ∧
      ∃ b₁ : PoseBone,
        (apply_constraints wSrc3 wTgt3
              (get_common_bone_names wSrc3 wTgt3)).poseBones.find?
            (fun b => b.name == "Hip") = some b₁ ∧
        b₁.name = b₀.name ∧
        b₁.constraints
          = b₀.constraints.filter (fun c => !isSyncName c.name)
            ++ [⟨rotPref ++ "Hip", "COPY_ROTATION", some wSrc3.name, "Hip", "WORLD", "WORLD", true, true, true, some "REPLACE"⟩,
                ⟨locPref ++ "Hip", "COPY_LOCATION", some wSrc3.name, "Hip", "WORLD", "WORLD", true, true, true, none⟩,
                ⟨sclPref ++ "Hip", "COPY_SCALE", some wSrc3.name, "Hip", "WORLD", "WORLD", true, true, true, none⟩] ∧
        b₁.constraints.filter (fun c => isSyncName c.name)
          = [⟨rotPref ++ "Hip", "COPY_ROTATION", some wSrc3.name, "Hip", "WORLD", "WORLD", true, true, true, some "REPLACE"⟩,
             ⟨locPref ++ "Hip", "COPY_LOCATION", some wSrc3.name, "Hip", "WORLD", "WORLD", true, true, true, none⟩,
             ⟨sclPref ++ "Hip", "COPY_SCALE", some wSrc3.name, "Hip", "WORLD", "WORLD", true, true, true, none⟩]) := by
  have hmem : "Hip" ∈ get_common_bone_names wSrc3 wTgt3 :=
    (mem_get_common_bone_names wSrc3 wTgt3 "Hip").mpr (by constructor <;> decide)
  exact ⟨hmem, apply_sync_sets_exactly_three wSrc3 wTgt3 "Hip" hmem⟩
